import Mathlib

/-!
Shallow embedding of the lexer subsystem of the `please` task runner
(`src/lexer.rs`, `src/error.rs`).  Rust's `Peekable<Chars>` cursor is
modelled as a current character (`ch : Option Char`) plus the remaining
characters (`input : List Char`); machine integers are `Nat`; fallible
operations return the mutated lexer together with `Option CompilationError`
(the Rust methods mutate `&mut self` and return `Result<()>`, so mutations
performed before an error persist).  Loops are given explicit fuel so that
every definition is executable and reduces in the kernel; `none` from a
fueled loop marks non-termination within the fuel bound.
-/

namespace Please

/-- The null sentinel character `'\0'` used by the Rust lexer. -/
def nullChar : Char := Char.ofNat 0

/-- The ASCII apostrophe, used by the Rust display strings. -/
def quoteStr : String := String.singleton (Char.ofNat 39)

/-- UTF-8 byte length of a character (Rust `char::len_utf8`). -/
def lenUtf8 (c : Char) : Nat :=
  if c.toNat < 0x80 then 1
  else if c.toNat < 0x800 then 2
  else if c.toNat < 0x10000 then 3
  else 4

/-- `TokenKind` from `src/lexer.rs`.  Interned strings (`IStr`) are modelled
as plain `String`. -/
inductive TokenKind where
  | At
  | Colon
  | Assign
  | Add
  | AddAssign
  | ParenL
  | ParenR
  | InterpolationStart
  | InterpolationEnd
  | Indent
  | Dedent
  | Identifier (s : String)
  | Keyword (s : String)
  | Command (s : String)
  deriving DecidableEq, Repr

/-- The fixed keyword vocabulary (`KEYWORDS` in `src/lexer.rs`). -/
def KEYWORDS : List String := ["for", "in", "if", "else"]

/-- `Token` from `src/lexer.rs`: 0-based line/column as stored while lexing. -/
structure Token where
  line : Nat
  col : Nat
  kind : TokenKind
  filename : String
  deriving DecidableEq, Repr

/-- `CompilationErrorKind` from `src/error.rs`.  The parser-only variant is
absent from the source file as given. -/
inductive CompilationErrorKind where
  | ExpectedButGot (got expected : Char)
  | UnexpectedChar (ch : Char)
  | Internal (message : String)
  deriving DecidableEq, Repr

/-- `CompilationError` from `src/error.rs`. -/
structure CompilationError where
  line : Nat
  column : Nat
  filename : String
  kind : CompilationErrorKind
  deriving DecidableEq, Repr

/-- `MultipleErrors` from `src/error.rs`: the aggregate error.  The Rust field
holds `failure::Error` values; during lexing every one of them wraps a
`CompilationError`, which is what we store. -/
structure MultipleErrors where
  errs : List CompilationError
  deriving DecidableEq, Repr

/-- Display of `CompilationErrorKind` (the `#[fail(display = ...)]`
attributes in `src/error.rs`). -/
def CompilationErrorKind.display : CompilationErrorKind → String
  | .ExpectedButGot got expected =>
      "expected " ++ quoteStr ++ expected.toString ++ quoteStr ++ " but got "
        ++ quoteStr ++ got.toString ++ quoteStr
  | .UnexpectedChar ch =>
      "unexpected character " ++ quoteStr ++ ch.toString ++ quoteStr
  | .Internal message =>
      "internal error: " ++ quoteStr ++ message ++ quoteStr

/-- Display of `CompilationError`: `"{kind} at {filename}:{line}:{column}"`. -/
def CompilationError.display (e : CompilationError) : String :=
  e.kind.display ++ " at " ++ e.filename ++ ":" ++ toString e.line ++ ":"
    ++ toString e.column

/-- The sequence of `writeln!` outputs of `MultipleErrors::fmt`
(`src/error.rs`).  The Rust indexed loop `for err_idx in 0..5` over the
first five errors is written as a map over `errs.take 5`. -/
def MultipleErrors.fmtPieces (m : MultipleErrors) : List String :=
  (if m.errs.length > 1 then ["multiple errors:\n"] else []) ++
  (if m.errs.length > 5 then
      ((m.errs.take 5).map (fun e => "\t" ++ e.display ++ "\n")) ++
        ["\t" ++ toString (m.errs.length - 5) ++ " other errors omitted.\n"]
    else
      m.errs.map (fun e => "\t" ++ e.display ++ "\n"))

/-- The rendered text of `MultipleErrors::fmt`. -/
def MultipleErrors.fmt (m : MultipleErrors) : String :=
  String.join m.fmtPieces

/-- `State` from `src/lexer.rs`: the lexer mode. -/
inductive State where
  | Normal
  | Indented (indentation : Nat)
  | Text
  | Interpolation (interpolationStartCol interpolationStartRow : Nat)
  deriving DecidableEq, Repr

/-- `Lexer` from `src/lexer.rs`.  `ch`/`input` model the current char and
the not-yet-consumed remainder of the `Peekable<Chars>` stream.  The mode
stack's top is the head of `state` (the Rust `Vec`'s last element). -/
structure Lexer where
  filename : String
  input : List Char
  token : Option Token
  ch : Option Char
  line : Nat
  col : Nat
  errs : List CompilationError
  state : List State
  deriving DecidableEq, Repr

/-- `Lexer::error`: materializes a diagnostic at the cursor position,
adding 1 to line and col to offset the internal 0-indexing. -/
def Lexer.error (l : Lexer) (kind : CompilationErrorKind) : CompilationError :=
  ⟨l.line + 1, l.col + 1, l.filename, kind⟩

/-- `Lexer::internal_error`. -/
def Lexer.internalError (l : Lexer) (message : String) : CompilationError :=
  l.error (.Internal message)

/-- `Token::error` (`src/lexer.rs`): builds a diagnostic from a token's own
stored (0-based) position, without the +1 adjustment.  Not called anywhere
during lexing; it is parser-facing surface. -/
def Token.error (t : Token) (kind : CompilationErrorKind) : CompilationError :=
  ⟨t.line, t.col, t.filename, kind⟩

/-- `Lexer::is_eof`. -/
def Lexer.isEof (l : Lexer) : Bool := l.ch.isNone

/-- `Lexer::ch_is`. -/
def Lexer.chIs (l : Lexer) (c : Char) : Bool := l.ch == some c

/-- `Lexer::nextch`: one-character lookahead (`peek`). -/
def Lexer.nextch (l : Lexer) : Option Char := l.input.head?

/-- `Lexer::nextch_is`. -/
def Lexer.nextchIs (l : Lexer) (c : Char) : Bool := l.nextch == some c

/-- `Lexer::make_token`: a token at the current (0-based) cursor position. -/
def Lexer.makeToken (l : Lexer) (kind : TokenKind) : Token :=
  ⟨l.line, l.col, kind, l.filename⟩

/-- Number of characters not yet consumed (current char included). -/
def Lexer.remaining (l : Lexer) : Nat :=
  (if l.ch.isSome then 1 else 0) + l.input.length

/-- `Lexer::bump`: consume the current character, updating line/col; a
newline resets col to 0 and increments line, the null sentinel leaves the
position untouched, anything else advances col by its UTF-8 byte length.
Bumping at end of input is an internal error. -/
def Lexer.bump (l : Lexer) : Lexer × Option CompilationError :=
  match l.ch with
  | some c =>
    if c = '\n' then
      ({ l with col := 0, line := l.line + 1,
                ch := l.input.head?, input := l.input.tail }, none)
    else if c = nullChar then
      ({ l with ch := l.input.head?, input := l.input.tail }, none)
    else
      ({ l with col := l.col + lenUtf8 c,
                ch := l.input.head?, input := l.input.tail }, none)
  | none => (l, some (l.internalError "Lexer advanced past end of text"))

/-- `Lexer::state`: top of the mode stack, internal error when empty. -/
def Lexer.curState (l : Lexer) : Except CompilationError State :=
  match l.state.head? with
  | none => .error (l.internalError "attempted to access empty lexer state stack")
  | some s => .ok s

/-- `Lexer::pop_state`. -/
def Lexer.popState (l : Lexer) : Lexer × Option CompilationError :=
  match l.state with
  | [] => (l, some (l.internalError "attempted to pop empty lexer state stack"))
  | _ :: rest => ({ l with state := rest }, none)

/-- `Lexer::lex_single`: token at the current position, then one bump. -/
def Lexer.lexSingle (l : Lexer) (kind : TokenKind) : Lexer × Option CompilationError :=
  let token := l.makeToken kind
  let b := l.bump
  match b.2 with
  | none => ({ b.1 with token := some token }, none)
  | some e => (b.1, some e)

/-- `Lexer::lex_double`: token at the current position, then two bumps. -/
def Lexer.lexDouble (l : Lexer) (kind : TokenKind) : Lexer × Option CompilationError :=
  let token := l.makeToken kind
  let b := l.bump
  match b.2 with
  | some e => (b.1, some e)
  | none =>
    let b2 := b.1.bump
    match b2.2 with
    | some e => (b2.1, some e)
    | none => ({ b2.1 with token := some token }, none)

/-- `is_in_range` over the optional current character. -/
def isInRange (c : Option Char) (low high : Char) : Bool :=
  match c with
  | some c => low ≤ c && c ≤ high
  | none => false

/-- `is_decimal_digit`. -/
def isDecimalDigit (c : Option Char) : Bool := isInRange c '0' '9'

/-- `is_ident_start`: `[a-zA-Z_]`. -/
def isIdentStart (c : Option Char) : Bool :=
  isInRange c 'a' 'z' || isInRange c 'A' 'Z' || c == some '_'

/-- `is_ident_continue`: `[a-zA-Z0-9_]`. -/
def isIdentContinue (c : Option Char) : Bool :=
  isIdentStart c || isDecimalDigit c

/-- The accumulation loop of `Lexer::lex_identifier`, with fuel.  The bump
inside the loop never fails because the loop guard guarantees the current
character is present. -/
def lexIdentLoop : Nat → Lexer → List Char → Lexer × List Char
  | 0, l, acc => (l, acc)
  | fuel + 1, l, acc =>
    match l.ch with
    | some c =>
      if isIdentContinue (some c) then
        lexIdentLoop fuel (l.bump).1 (acc ++ [c])
      else (l, acc)
    | none => (l, acc)

/-- `Lexer::lex_identifier`: scan `[a-zA-Z_][a-zA-Z0-9_]*` starting at the
current position, reclassifying the interned lexeme as `Keyword` when it is
in the closed keyword set. -/
def Lexer.lexIdentifier (l : Lexer) : Lexer :=
  let line := l.line
  let col := l.col
  let r := lexIdentLoop l.remaining l []
  let ident : String := ⟨r.2⟩
  let kind := if KEYWORDS.contains ident then TokenKind.Keyword ident
              else TokenKind.Identifier ident
  { r.1 with token := some ⟨line, col, kind, l.filename⟩ }

/-- `Lexer::lex_normal`: the Normal-mode scanning rules.  The `unwrap` of
the current character in the error path is reached only under `advance`'s
EOF guard, where the character is present; `getD nullChar` stands for it. -/
def Lexer.lexNormal (l : Lexer) : Lexer × Option CompilationError :=
  if l.chIs '@' then l.lexSingle .At
  else if l.chIs ':' then l.lexSingle .Colon
  else if l.chIs '(' then l.lexSingle .ParenL
  else if l.chIs ')' then l.lexSingle .ParenR
  else if isIdentStart l.ch then (l.lexIdentifier, none)
  else
    let err := l.error (.UnexpectedChar (l.ch.getD nullChar))
    let b := l.bump
    match b.2 with
    | none => (b.1, some err)
    | some e => (b.1, some e)

/-- `Lexer::expect` (declared in the source, unused by the implemented
scanning paths). -/
def Lexer.expect (l : Lexer) (c : Char) : Lexer × Option CompilationError :=
  if l.ch ≠ some c then
    let e := l.error (.ExpectedButGot (l.ch.getD nullChar) c)
    let b := l.bump
    match b.2 with
    | none => (b.1, some e)
    | some e2 => (b.1, some e2)
  else
    let b := l.bump
    match b.2 with
    | none => (b.1, none)
    | some e2 => (b.1, some e2)

/-- `Lexer::advance`: at EOF clear the current token (stream exhausted);
otherwise dispatch on the top mode — only `Normal` is implemented, any
other mode is the internal error "Unexpected state". -/
def Lexer.advance (l : Lexer) : Lexer × Option CompilationError :=
  if l.isEof then ({ l with token := none }, none)
  else
    match l.curState with
    | .error e => (l, some e)
    | .ok .Normal => l.lexNormal
    | .ok _ => (l, some (l.internalError "Unexpected state"))

/-- The retry loop of `Iterator::next` for `Lexer`: advance; while the
advance fails, push the error and advance again; finally return the current
token.  `none` means the loop did not terminate within the fuel. -/
def Lexer.nextLoop : Nat → Lexer → Option (Lexer × Option Token)
  | 0, _ => none
  | fuel + 1, l =>
    match l.advance with
    | (l', none) => some (l', l'.token)
    | (l', some e) => Lexer.nextLoop fuel { l' with errs := l'.errs ++ [e] }

/-- `Iterator::next` for `Lexer`.  In Normal mode every failing advance
consumes exactly one character, so `remaining + 1` iterations always
suffice. -/
def Lexer.next (l : Lexer) : Option (Lexer × Option Token) :=
  Lexer.nextLoop (l.remaining + 1) l

/-- The lexer state as built by `Lexer::new` before the priming bump. -/
def Lexer.init (text filename : String) : Lexer :=
  ⟨filename, text.data, none, some nullChar, 0, 0, [], [State.Normal]⟩

/-- `Lexer::new`: prime the cursor with one bump of the null sentinel
(which cannot fail, so the Rust `?` never fires). -/
def Lexer.new (text filename : String) : Lexer :=
  ((Lexer.init text filename).bump).1

/-- The driver loop of `Lexer::lex`: `while let Some(t) = lex.next()`,
collecting tokens.  `none` means a nested `next` or the loop itself ran out
of fuel. -/
def Lexer.lexLoop : Nat → Lexer → List Token → Option (List Token × Lexer)
  | 0, _, _ => none
  | fuel + 1, l, acc =>
    match l.next with
    | none => none
    | some (l', none) => some (acc, l')
    | some (l', some t) => Lexer.lexLoop fuel l' (acc ++ [t])

/-- The token-collection phase of `Lexer::lex`, returning the collected
tokens together with the exhausted lexer (whose `errs` is the accrued error
list).  Every token consumes at least one character, so `remaining + 1`
iterations always suffice in Normal mode. -/
def Lexer.run (text filename : String) : Option (List Token × Lexer) :=
  let l := Lexer.new text filename
  Lexer.lexLoop (l.remaining + 1) l []

/-- `Lexer::lex`: drive the iterator to exhaustion, then return the tokens
when no error accrued, and the aggregate of all accrued errors otherwise. -/
def Lexer.lex (text filename : String) :
    Option (Except MultipleErrors (List Token)) :=
  match Lexer.run text filename with
  | none => none
  | some (toks, l') =>
      some (if l'.errs.isEmpty then .ok toks else .error ⟨l'.errs⟩)

/-! ### Basic facts about the cursor -/

/-- `remaining` ignores the `token` field. -/
theorem remaining_set_token (x : Lexer) (t : Option Token) :
    Lexer.remaining { x with token := t } = x.remaining := rfl

/-- `remaining` ignores the `errs` field. -/
theorem remaining_set_errs (x : Lexer) (es : List CompilationError) :
    Lexer.remaining { x with errs := es } = x.remaining := rfl

/-- A successful bump only moves the position and consumes one character. -/
theorem Lexer.bump_some (l : Lexer) (c : Char) (h : l.ch = some c) :
    ∃ ln cl, l.bump =
      ({ l with line := ln, col := cl,
                ch := l.input.head?, input := l.input.tail }, none) := by
  by_cases h1 : c = '\n'
  · exact ⟨l.line + 1, 0, by simp [Lexer.bump, h, h1]⟩
  · by_cases h2 : c = nullChar
    · exact ⟨l.line, l.col,
        by subst h2; simp [Lexer.bump, h, (by decide : ¬(nullChar = '\n'))]⟩
    · exact ⟨l.line, l.col + lenUtf8 c, by simp [Lexer.bump, h, h1, h2]⟩

/-- Field preservation of a successful bump. -/
theorem Lexer.bump_fields (l : Lexer) (c : Char) (h : l.ch = some c) :
    (l.bump).2 = none ∧ (l.bump).1.state = l.state ∧ (l.bump).1.errs = l.errs ∧
    (l.bump).1.filename = l.filename ∧ (l.bump).1.token = l.token ∧
    (l.bump).1.ch = l.input.head? ∧ (l.bump).1.input = l.input.tail := by
  obtain ⟨ln, cl, he⟩ := l.bump_some c h
  rw [he]
  exact ⟨rfl, rfl, rfl, rfl, rfl, rfl, rfl⟩

/-- A successful bump consumes exactly one character. -/
theorem Lexer.bump_remaining (l : Lexer) (c : Char) (h : l.ch = some c) :
    (l.bump).1.remaining + 1 = l.remaining := by
  obtain ⟨ln, cl, he⟩ := l.bump_some c h
  rw [he]
  cases hi : l.input <;> (simp [Lexer.remaining, h, hi]; try omega)

/-! ### The identifier loop -/

/-- `lexIdentLoop` keeps the mode stack, errors, filename and current token,
and never lengthens the input. -/
theorem lexIdentLoop_fields : ∀ (fuel : Nat) (l : Lexer) (acc : List Char),
    (lexIdentLoop fuel l acc).1.state = l.state ∧
    (lexIdentLoop fuel l acc).1.errs = l.errs ∧
    (lexIdentLoop fuel l acc).1.filename = l.filename ∧
    (lexIdentLoop fuel l acc).1.token = l.token ∧
    (lexIdentLoop fuel l acc).1.remaining ≤ l.remaining := by
  intro fuel
  induction fuel with
  | zero => intro l acc; simp [lexIdentLoop]
  | succ f ih =>
    intro l acc
    cases hch : l.ch with
    | none => simp [lexIdentLoop, hch]
    | some c =>
      by_cases hc : isIdentContinue (some c) = true
      · have hb := l.bump_fields c hch
        have hr := l.bump_remaining c hch
        have hrec := ih (l.bump).1 (acc ++ [c])
        simp only [lexIdentLoop, hch, hc, if_true]
        exact ⟨hrec.1.trans hb.2.1, hrec.2.1.trans hb.2.2.1,
          hrec.2.2.1.trans hb.2.2.2.1, hrec.2.2.2.1.trans hb.2.2.2.2.1,
          by omega⟩
      · simp [lexIdentLoop, hch, hc]

/-- With fuel available and an identifier character under the cursor, the
identifier loop consumes at least one character. -/
theorem lexIdentLoop_progress (fuel : Nat) (l : Lexer) (acc : List Char)
    (c : Char) (h : l.ch = some c) (hc : isIdentContinue (some c) = true)
    (hf : 1 ≤ fuel) :
    (lexIdentLoop fuel l acc).1.remaining < l.remaining := by
  obtain ⟨f, rfl⟩ : ∃ f, fuel = f + 1 := ⟨fuel - 1, by omega⟩
  have hb := l.bump_remaining c h
  have hfld := lexIdentLoop_fields f (l.bump).1 (acc ++ [c])
  simp only [lexIdentLoop, h, hc, if_true]
  omega

/-- `lex_identifier` keeps the mode stack, errors and filename, sets the
current token, and consumes at least one character. -/
theorem Lexer.lexIdentifier_fields (l : Lexer) (c : Char) (h : l.ch = some c)
    (hc : isIdentContinue (some c) = true) :
    (l.lexIdentifier).state = l.state ∧ (l.lexIdentifier).errs = l.errs ∧
    (l.lexIdentifier).filename = l.filename ∧
    (∃ t, (l.lexIdentifier).token = some t) ∧
    (l.lexIdentifier).remaining < l.remaining := by
  have hfld := lexIdentLoop_fields l.remaining l []
  have hpr := lexIdentLoop_progress l.remaining l [] c h hc
    (by simp [Lexer.remaining, h])
  unfold Lexer.lexIdentifier
  exact ⟨hfld.1, hfld.2.1, hfld.2.2.1, ⟨_, rfl⟩, hpr⟩

/-! ### `lex_single` and the `lex_normal` case analysis -/

/-- Explicit form of `lex_single` when the current character exists. -/
theorem Lexer.lexSingle_explicit (l : Lexer) (c : Char) (k : TokenKind)
    (h : l.ch = some c) :
    ∃ ln cl, l.lexSingle k =
      ({ l with line := ln, col := cl, ch := l.input.head?,
                input := l.input.tail, token := some (l.makeToken k) }, none) := by
  obtain ⟨ln, cl, he⟩ := l.bump_some c h
  exact ⟨ln, cl, by simp only [Lexer.lexSingle, he]⟩

/-- The residual branch of `lex_normal`: an unrecognized character becomes
an `UnexpectedChar` diagnostic and is still consumed (resynchronization). -/
theorem Lexer.lexNormal_error (l : Lexer) (c : Char) (h : l.ch = some c)
    (h1 : c ≠ '@') (h2 : c ≠ ':') (h3 : c ≠ '(') (h4 : c ≠ ')')
    (h5 : isIdentStart (some c) = false) :
    l.lexNormal = ((l.bump).1, some (l.error (.UnexpectedChar c))) := by
  have hb := (l.bump_fields c h).1
  simp [Lexer.lexNormal, Lexer.chIs, h, beq_iff_eq, h1, h2, h3, h4, h5, hb]

/-- An identifier-start character never matches the punctuation guards. -/
theorem identStart_ne (c : Char) (h : isIdentStart (some c) = true) :
    c ≠ '@' ∧ c ≠ ':' ∧ c ≠ '(' ∧ c ≠ ')' := by
  refine ⟨?_, ?_, ?_, ?_⟩ <;> (rintro rfl; exact absurd h (by decide))

/-- The identifier branch of `lex_normal`. -/
theorem Lexer.lexNormal_ident (l : Lexer) (c : Char) (h : l.ch = some c)
    (h5 : isIdentStart (some c) = true) :
    l.lexNormal = (l.lexIdentifier, none) := by
  obtain ⟨h1, h2, h3, h4⟩ := identStart_ne c h5
  simp [Lexer.lexNormal, Lexer.chIs, h, beq_iff_eq, h1, h2, h3, h4, h5]

/-- One `lex_normal` step: the mode stack, errors and filename are
untouched; either a token is produced and at least one character consumed,
or a 1-based diagnostic is returned and exactly one character consumed. -/
theorem Lexer.lexNormal_spec (l : Lexer) (c : Char) (h : l.ch = some c) :
    (l.lexNormal).1.state = l.state ∧ (l.lexNormal).1.errs = l.errs ∧
    (l.lexNormal).1.filename = l.filename ∧
    (((l.lexNormal).2 = none ∧ (∃ t, (l.lexNormal).1.token = some t) ∧
        (l.lexNormal).1.remaining < l.remaining) ∨
      (∃ ce, (l.lexNormal).2 = some ce ∧ 1 ≤ ce.line ∧ 1 ≤ ce.column ∧
        (l.lexNormal).1.token = l.token ∧
        (l.lexNormal).1.remaining + 1 = l.remaining)) := by
  have hsingle : ∀ k : TokenKind, l.lexNormal = l.lexSingle k →
      (l.lexNormal).1.state = l.state ∧ (l.lexNormal).1.errs = l.errs ∧
      (l.lexNormal).1.filename = l.filename ∧
      (((l.lexNormal).2 = none ∧ (∃ t, (l.lexNormal).1.token = some t) ∧
          (l.lexNormal).1.remaining < l.remaining) ∨
        (∃ ce, (l.lexNormal).2 = some ce ∧ 1 ≤ ce.line ∧ 1 ≤ ce.column ∧
          (l.lexNormal).1.token = l.token ∧
          (l.lexNormal).1.remaining + 1 = l.remaining)) := by
    intro k hk
    obtain ⟨ln, cl, he⟩ := l.lexSingle_explicit c k h
    rw [hk, he]
    refine ⟨rfl, rfl, rfl, .inl ⟨rfl, ⟨_, rfl⟩, ?_⟩⟩
    cases hi : l.input <;> simp [Lexer.remaining, h, hi]
  by_cases h1 : c = '@'
  · exact hsingle .At (by simp [Lexer.lexNormal, Lexer.chIs, h, h1])
  by_cases h2 : c = ':'
  · exact hsingle .Colon
      (by simp [Lexer.lexNormal, Lexer.chIs, h, beq_iff_eq, h1, h2])
  by_cases h3 : c = '('
  · exact hsingle .ParenL
      (by simp [Lexer.lexNormal, Lexer.chIs, h, beq_iff_eq, h1, h2, h3])
  by_cases h4 : c = ')'
  · exact hsingle .ParenR
      (by simp [Lexer.lexNormal, Lexer.chIs, h, beq_iff_eq, h1, h2, h3, h4])
  by_cases h5 : isIdentStart (some c) = true
  · have hk := l.lexNormal_ident c h h5
    have hf := l.lexIdentifier_fields c h (by simp [isIdentContinue, h5])
    rw [hk]
    exact ⟨hf.1, hf.2.1, hf.2.2.1, .inl ⟨rfl, hf.2.2.2.1, hf.2.2.2.2⟩⟩
  · have hk := l.lexNormal_error c h h1 h2 h3 h4 (by simpa using h5)
    have hb := l.bump_fields c h
    have hr := l.bump_remaining c h
    rw [hk]
    exact ⟨hb.2.1, hb.2.2.1, hb.2.2.2.1,
      .inr ⟨l.error (.UnexpectedChar c), rfl, by simp [Lexer.error],
        by simp [Lexer.error], hb.2.2.2.2.1, hr⟩⟩

/-! ### One `advance` step and the `next` retry loop -/

/-- One `advance` step from the Normal mode: either the EOF branch clears
the token, or a token is produced, or a 1-based diagnostic comes back with
exactly one character consumed. -/
theorem Lexer.advance_spec (l : Lexer) (hst : l.state = [State.Normal]) :
    (l.advance).1.state = l.state ∧ (l.advance).1.errs = l.errs ∧
    (l.advance).1.filename = l.filename ∧
    ((l.isEof = true ∧ l.advance = ({ l with token := none }, none)) ∨
      ((l.advance).2 = none ∧ (∃ t, (l.advance).1.token = some t) ∧
        (l.advance).1.remaining < l.remaining) ∨
      (∃ ce, (l.advance).2 = some ce ∧ 1 ≤ ce.line ∧ 1 ≤ ce.column ∧
        (l.advance).1.token = l.token ∧
        (l.advance).1.remaining + 1 = l.remaining)) := by
  cases hch : l.ch with
  | none =>
    have heof : l.isEof = true := by simp [Lexer.isEof, hch]
    refine ⟨?_, ?_, ?_, .inl ⟨heof, ?_⟩⟩ <;> simp [Lexer.advance, heof, hch]
  | some c =>
    have heq : l.advance = l.lexNormal := by
      simp [Lexer.advance, Lexer.isEof, hch, Lexer.curState, hst]
    rw [heq]
    obtain ⟨hs, he, hf, hcase⟩ := l.lexNormal_spec c hch
    exact ⟨hs, he, hf, .inr hcase⟩

/-- The retry loop of `next` terminates in Normal mode given fuel beyond
the remaining character count, preserving the mode stack and filename,
appending only 1-based diagnostics, and consuming input. -/
theorem Lexer.nextLoop_total : ∀ (fuel : Nat) (l : Lexer),
    l.state = [State.Normal] → l.remaining < fuel →
    ∃ l' t, Lexer.nextLoop fuel l = some (l', t) ∧
      l'.state = [State.Normal] ∧ l'.filename = l.filename ∧
      l'.remaining ≤ l.remaining ∧
      (∃ es, l'.errs = l.errs ++ es ∧ ∀ e ∈ es, 1 ≤ e.line ∧ 1 ≤ e.column) ∧
      (t = none → l'.isEof = true ∧ l'.token = none) ∧
      (∀ x, t = some x → l'.remaining < l.remaining) := by
  intro fuel
  induction fuel with
  | zero => intro l _ hr; omega
  | succ f ih =>
    intro l hst hr
    obtain ⟨hs, he, hf, hcase⟩ := l.advance_spec hst
    rcases hcase with ⟨heof, heq⟩ | ⟨h2, ⟨tok, htok⟩, hlt⟩ |
      ⟨ce, hsome, hl1, hc1, htok, hrm⟩
    · refine ⟨{ l with token := none }, none, ?_, by simpa using hst, rfl,
        le_refl _, ⟨[], by simp, by simp⟩,
        fun _ => ⟨by simpa [Lexer.isEof] using heof, rfl⟩, by simp⟩
      simp [Lexer.nextLoop, heq]
    · have hpair : l.advance = ((l.advance).1, none) := by rw [← h2]
      refine ⟨(l.advance).1, (l.advance).1.token, ?_, hs.trans hst, hf,
        le_of_lt hlt, ⟨[], by simp [he], by simp⟩, ?_, fun x _ => hlt⟩
      · simp only [Lexer.nextLoop]
        rw [hpair]
      · intro hn
        rw [htok] at hn
        exact absurd hn (by simp)
    · have hpair : l.advance = ((l.advance).1, some ce) := by rw [← hsome]
      have hst₁ : ({ (l.advance).1 with errs := (l.advance).1.errs ++ [ce] }
          : Lexer).state = [State.Normal] := by simpa using hs.trans hst
      have hrem₁ : ({ (l.advance).1 with errs := (l.advance).1.errs ++ [ce] }
          : Lexer).remaining = (l.advance).1.remaining := rfl
      obtain ⟨l', t, heq', hst', hf', hrem', ⟨es, herrs', hb'⟩, hnone', hsome'⟩ :=
        ih { (l.advance).1 with errs := (l.advance).1.errs ++ [ce] } hst₁
          (by omega)
      have hf'' : l'.filename = l.filename := by
        rw [hf']
        simpa using hf
      have herrs'' : l'.errs = (l.advance).1.errs ++ [ce] ++ es := by
        rw [herrs']
      refine ⟨l', t, ?_, hst', hf'', by omega, ⟨ce :: es, ?_, ?_⟩, hnone', ?_⟩
      · simp only [Lexer.nextLoop]
        rw [hpair]
        exact heq'
      · rw [herrs'', he]
        simp
      · intro e hme
        rcases List.mem_cons.mp hme with rfl | hme
        · exact ⟨hl1, hc1⟩
        · exact hb' e hme
      · intro x _
        omega

/-- `next` always terminates in Normal mode. -/
theorem Lexer.next_total (l : Lexer) (hst : l.state = [State.Normal]) :
    ∃ l' t, l.next = some (l', t) ∧
      l'.state = [State.Normal] ∧ l'.filename = l.filename ∧
      l'.remaining ≤ l.remaining ∧
      (∃ es, l'.errs = l.errs ++ es ∧ ∀ e ∈ es, 1 ≤ e.line ∧ 1 ≤ e.column) ∧
      (t = none → l'.isEof = true ∧ l'.token = none) ∧
      (∀ x, t = some x → l'.remaining < l.remaining) :=
  Lexer.nextLoop_total (l.remaining + 1) l hst (by omega)

/-- A successful advance that leaves no current token is the EOF branch. -/
theorem Lexer.advance_token_none (l l₁ : Lexer) (h : l.advance = (l₁, none))
    (ht : l₁.token = none) : l₁.isEof = true := by
  by_cases heof : l.isEof = true
  · have heq2 : l.advance = ({ l with token := none }, none) := by
      simp [Lexer.advance, heof]
    rw [heq2] at h
    have h1 : ({ l with token := none } : Lexer) = l₁ := congrArg Prod.fst h
    rw [← h1]
    simpa [Lexer.isEof] using heof
  · cases hch : l.ch with
    | none => exact absurd (by simp [Lexer.isEof, hch]) heof
    | some c =>
      cases hcs : l.curState with
      | error e =>
        have : l.advance = (l, some e) := by
          simp [Lexer.advance, heof, hcs]
        rw [this] at h
        exact absurd (congrArg Prod.snd h) (by simp)
      | ok s =>
        cases s with
        | Normal =>
          have hadv : l.advance = l.lexNormal := by
            simp [Lexer.advance, heof, hcs]
          rw [hadv] at h
          obtain ⟨-, -, -, hcase⟩ := l.lexNormal_spec c hch
          rcases hcase with ⟨-, ⟨t, htk⟩, -⟩ | ⟨ce, hce, -⟩
          · rw [h] at htk
            simp only at htk
            rw [ht] at htk
            exact absurd htk (by simp)
          · rw [h] at hce
            exact absurd hce (by simp)
        | Indented n =>
          have : l.advance = (l, some (l.internalError "Unexpected state")) := by
            simp [Lexer.advance, heof, hcs]
          rw [this] at h
          exact absurd (congrArg Prod.snd h) (by simp)
        | Text =>
          have : l.advance = (l, some (l.internalError "Unexpected state")) := by
            simp [Lexer.advance, heof, hcs]
          rw [this] at h
          exact absurd (congrArg Prod.snd h) (by simp)
        | Interpolation a b =>
          have : l.advance = (l, some (l.internalError "Unexpected state")) := by
            simp [Lexer.advance, heof, hcs]
          rw [this] at h
          exact absurd (congrArg Prod.snd h) (by simp)

/-- When the retry loop reports stream exhaustion, the lexer really is at
end of input with its token cleared. -/
theorem Lexer.nextLoop_eof : ∀ (fuel : Nat) (l l' : Lexer),
    Lexer.nextLoop fuel l = some (l', none) →
    l'.isEof = true ∧ l'.token = none := by
  intro fuel
  induction fuel with
  | zero => intro l l' h; simp [Lexer.nextLoop] at h
  | succ f ih =>
    intro l l' h
    simp only [Lexer.nextLoop] at h
    cases hadv : l.advance with
    | mk l₁ e =>
      rw [hadv] at h
      cases e with
      | none =>
        simp only [Option.some.injEq, Prod.mk.injEq] at h
        obtain ⟨h1, h2⟩ := h
        subst h1
        exact ⟨l.advance_token_none l₁ hadv h2, h2⟩
      | some ce => exact ih _ _ h

/-! ### The driver loop -/

/-- The driver loop terminates in Normal mode given fuel beyond the
remaining character count, ends at end of input, and only appends 1-based
diagnostics. -/
theorem Lexer.lexLoop_total : ∀ (fuel : Nat) (l : Lexer) (acc : List Token),
    l.state = [State.Normal] → l.remaining < fuel →
    ∃ toks l', Lexer.lexLoop fuel l acc = some (acc ++ toks, l') ∧
      l'.state = [State.Normal] ∧ l'.filename = l.filename ∧
      l'.isEof = true ∧ l'.token = none ∧
      (∃ es, l'.errs = l.errs ++ es ∧ ∀ e ∈ es, 1 ≤ e.line ∧ 1 ≤ e.column) := by
  intro fuel
  induction fuel with
  | zero => intro l acc _ hr; omega
  | succ f ih =>
    intro l acc hst hr
    obtain ⟨l₁, t, hnext, hst₁, hf₁, hrem₁, ⟨es₁, herr₁, hb₁⟩, hnone, hsome⟩ :=
      l.next_total hst
    cases t with
    | none =>
      refine ⟨[], l₁, ?_, hst₁, hf₁, (hnone rfl).1, (hnone rfl).2,
        ⟨es₁, herr₁, hb₁⟩⟩
      simp [Lexer.lexLoop, hnext]
    | some x =>
      have hlt := hsome x rfl
      obtain ⟨toks, l', heq, hst', hf', heof', htok', ⟨es₂, herr₂, hb₂⟩⟩ :=
        ih l₁ (acc ++ [x]) hst₁ (by omega)
      refine ⟨x :: toks, l', ?_, hst', hf'.trans hf₁, heof', htok',
        ⟨es₁ ++ es₂, ?_, ?_⟩⟩
      · simp only [Lexer.lexLoop, hnext]
        rw [heq]
        simp
      · rw [herr₂, herr₁]
        simp
      · intro e hme
        rcases List.mem_append.mp hme with hme | hme
        · exact hb₁ e hme
        · exact hb₂ e hme

/-- `Lexer::new` primes the cursor onto the first character without moving
the 0-based position, starting from the Normal mode alone. -/
theorem Lexer.new_eq (text filename : String) :
    Lexer.new text filename =
      ⟨filename, text.data.tail, none, text.data.head?, 0, 0, [],
        [State.Normal]⟩ := rfl

/-- The fresh lexer has the whole text left to consume. -/
theorem Lexer.remaining_new (text filename : String) :
    (Lexer.new text filename).remaining = text.data.length := by
  rw [Lexer.new_eq]
  cases htd : text.data <;> (simp [Lexer.remaining, htd]; try omega)

/-! ### Full consumption by the identifier loop -/

/-- When every character left in the stream is an identifier character, the
identifier loop consumes the entire stream and accumulates it in order. -/
theorem lexIdentLoop_all : ∀ (fuel : Nat) (l : Lexer) (acc : List Char),
    l.remaining ≤ fuel →
    (∀ d, l.ch = some d → isIdentContinue (some d) = true) →
    (∀ d ∈ l.input, isIdentContinue (some d) = true) →
    (l.ch = none → l.input = []) →
    ∃ ln cl, lexIdentLoop fuel l acc =
      ({ l with ch := none, input := [], line := ln, col := cl },
        acc ++ (match l.ch with | some d => d :: l.input | none => [])) := by
  intro fuel
  induction fuel with
  | zero =>
    intro l acc hrem hcur hall hne
    cases hc0 : l.ch with
    | some d => simp [Lexer.remaining, hc0] at hrem
    | none =>
      have hin := hne hc0
      refine ⟨l.line, l.col, ?_⟩
      cases l
      simp_all [lexIdentLoop]
  | succ f ih =>
    intro l acc hrem hcur hall hne
    cases hch : l.ch with
    | none =>
      have hin := hne hch
      refine ⟨l.line, l.col, ?_⟩
      cases l
      simp_all [lexIdentLoop]
    | some c =>
      have hc := hcur c hch
      have hbr := l.bump_remaining c hch
      have hbf := l.bump_fields c hch
      obtain ⟨ln₁, cl₁, he⟩ := l.bump_some c hch
      obtain ⟨ln, cl, heq⟩ := ih (l.bump).1 (acc ++ [c])
        (by omega)
        (by
          intro d hd
          rw [hbf.2.2.2.2.2.1] at hd
          exact hall d (List.mem_of_mem_head? (Option.mem_def.mpr hd)))
        (by
          intro d hd
          rw [hbf.2.2.2.2.2.2] at hd
          exact hall d (List.mem_of_mem_tail hd))
        (by
          intro h0
          rw [hbf.2.2.2.2.2.1, List.head?_eq_none_iff] at h0
          rw [hbf.2.2.2.2.2.2, h0]
          rfl)
      refine ⟨ln, cl, ?_⟩
      simp only [lexIdentLoop, hch, hc, if_true]
      rw [heq]
      rw [he]
      cases hi : l.input <;> simp [hi]

/-! ### Lexing a single identifier-shaped word -/

/-- A word shaped like `[a-zA-Z_][a-zA-Z0-9_]*`. -/
def IdentShaped (w : String) : Prop :=
  w.data ≠ [] ∧ isIdentStart w.data.head? = true ∧
    ∀ d ∈ w.data, isIdentContinue (some d) = true

instance : DecidablePred IdentShaped := by
  intro w
  unfold IdentShaped
  infer_instance

/-- Lexing an identifier-shaped word from a fresh lexer: the whole word is
consumed into one token at position (0, 0). -/
theorem lex_word (w filename : String) (h : IdentShaped w) :
    ∃ ln cl,
      Lexer.run w filename =
        some ([⟨0, 0,
          (if KEYWORDS.contains w then TokenKind.Keyword w
            else TokenKind.Identifier w), filename⟩],
          ⟨filename, [], none, none, ln, cl, [], [State.Normal]⟩) := by
  obtain ⟨hne, hstart, hall⟩ := h
  obtain ⟨c, cs, hcs⟩ : ∃ c cs, w.data = c :: cs := by
    cases hw : w.data with
    | nil => exact absurd hw hne
    | cons c cs => exact ⟨c, cs, rfl⟩
  have hstart' : isIdentStart (some c) = true := by
    rw [hcs] at hstart
    simpa using hstart
  have hcont : isIdentContinue (some c) = true := by
    simp [isIdentContinue, hstart']
  have h0 : Lexer.new w filename =
      ⟨filename, cs, none, some c, 0, 0, [], [State.Normal]⟩ := by
    rw [Lexer.new_eq, hcs]
    rfl
  set L0 : Lexer := ⟨filename, cs, none, some c, 0, 0, [], [State.Normal]⟩
    with hL0
  have hrem0 : L0.remaining = cs.length + 1 := by
    simp [Lexer.remaining, hL0]
    omega
  -- the identifier loop consumes the whole word
  obtain ⟨ln, cl, hloop⟩ := lexIdentLoop_all L0.remaining L0 [] (le_refl _)
    (by
      intro d hd
      have hd' : some c = some d := hd
      injection hd' with hcd
      subst hcd
      exact hcont)
    (by
      intro d hd
      refine hall d ?_
      rw [hcs]
      exact List.mem_cons_of_mem _ hd)
    (by intro h0'; simp [hL0] at h0')
  -- the produced token
  have hword : (⟨c :: cs⟩ : String) = w := by rw [← hcs]
  have hident : L0.lexIdentifier =
      ⟨filename, [], some ⟨0, 0,
        (if KEYWORDS.contains w then TokenKind.Keyword w
          else TokenKind.Identifier w), filename⟩, none, ln, cl, [],
        [State.Normal]⟩ := by
    unfold Lexer.lexIdentifier
    rw [hloop]
    simp only [hL0]
    rw [List.nil_append, hword]
  -- one advance step is the identifier branch
  have hadv : L0.advance = (L0.lexIdentifier, none) := by
    have hn : L0.lexNormal = (L0.lexIdentifier, none) :=
      L0.lexNormal_ident c (by rw [hL0]) hstart'
    rw [← hn]
    simp [Lexer.advance, Lexer.isEof, Lexer.curState, hL0]
  set tok : Token := ⟨0, 0,
    (if KEYWORDS.contains w then TokenKind.Keyword w
      else TokenKind.Identifier w), filename⟩ with htok
  set L1 : Lexer := ⟨filename, [], some tok, none, ln, cl, [], [State.Normal]⟩
    with hL1
  have hnext0 : L0.next = some (L1, some tok) := by
    unfold Lexer.next
    simp only [Lexer.nextLoop]
    rw [hadv, hident]
  -- the second next call reports exhaustion
  set L2 : Lexer := ⟨filename, [], none, none, ln, cl, [], [State.Normal]⟩
    with hL2
  have hnext1 : L1.next = some (L2, none) := by
    unfold Lexer.next
    simp only [Lexer.nextLoop]
    have : L1.advance = (L2, none) := by
      simp [Lexer.advance, Lexer.isEof, hL1, hL2]
    rw [this]
  refine ⟨ln, cl, ?_⟩
  show Lexer.lexLoop ((Lexer.new w filename).remaining + 1)
    (Lexer.new w filename) [] = _
  rw [h0, hrem0]
  simp only [Lexer.lexLoop, hnext0]
  simp only [Lexer.lexLoop, hnext1]
  simp

/-! ### Rendering helpers for the aggregate error -/

/-- Unified characterization of the written pieces: an optional header, the
first five (or all, when fewer) detail lines, and an optional remainder
count. -/
theorem fmtPieces_characterization (m : MultipleErrors) :
    m.fmtPieces =
      (if 1 < m.errs.length then ["multiple errors:\n"] else []) ++
      (m.errs.take 5).map (fun e => "\t" ++ e.display ++ "\n") ++
      (if 5 < m.errs.length then
        ["\t" ++ toString (m.errs.length - 5) ++ " other errors omitted.\n"]
      else []) := by
  unfold MultipleErrors.fmtPieces
  by_cases h5 : 5 < m.errs.length
  · rw [if_pos h5, if_pos h5, if_pos (show 1 < m.errs.length by omega)]
    simp [List.append_assoc]
  · rw [if_neg h5, if_neg (show ¬ m.errs.length > 5 from h5),
      List.take_of_length_le (by omega)]
    simp

/-- A detail or remainder line starts with a tab, so it can never be the
header line. -/
theorem tab_line_ne_header (a b : String) :
    "\t" ++ a ++ b ≠ "multiple errors:\n" := by
  intro heq
  have hd : ("\t" ++ a ++ b).data.head? = ("multiple errors:\n").data.head? :=
    congrArg (fun s => s.data.head?) heq
  rw [show ("multiple errors:\n").data.head? = some 'm' from rfl,
    String.data_append, String.data_append] at hd
  exact absurd hd (by simp [show ("\t").data = ['\t'] from rfl])

/-! ### The claims -/

/-- C1 (evaluation at the failing input): lexing `+=` from the default
Normal mode yields no token at all — `lex_normal` never dispatches on `+`
and `lex_double` is never invoked — and instead records two
`UnexpectedChar` diagnostics, for `+` at 1:1 and for `=` at 1:2, so the
pass fails; the claimed single `AddAssign` token is never produced. -/
theorem plus_assign_lexes_to_two_errors :
    Lexer.run "+=" "please" =
      some ([], ⟨"please", [], none, none, 0, 2,
        [⟨1, 1, "please", .UnexpectedChar '+'⟩,
          ⟨1, 2, "please", .UnexpectedChar '='⟩], [State.Normal]⟩) ∧
    Lexer.lex "+=" "please" =
      some (.error ⟨[⟨1, 1, "please", .UnexpectedChar '+'⟩,
        ⟨1, 2, "please", .UnexpectedChar '='⟩]⟩) := by
  constructor <;> rfl

/-- The lexer over `"echo {{x}}\n"` with the mode stack forced to `Text`. -/
def textLexer : Lexer :=
  { Lexer.new "echo \x7b\x7bx\x7d\x7d\n" "please" with state := [State.Text] }

/-- C2 (evaluation at the failing input): with the mode stack in `Text`
over the input `echo {{x}}\n`, one advance step returns the internal
diagnostic "Unexpected state" at 1:1 without consuming any input, and the
iterator's retry loop never terminates under any fuel bound — no
`Command`, `InterpolationStart`, `Identifier` or `InterpolationEnd` token
is ever produced, because only the Normal mode is implemented. -/
theorem text_mode_is_unimplemented :
    textLexer.advance =
      (textLexer, some ⟨1, 1, "please", .Internal "Unexpected state"⟩) ∧
    ∀ fuel : Nat, Lexer.nextLoop fuel textLexer = none := by
  have key : ∀ (fuel : Nat) (es : List CompilationError),
      Lexer.nextLoop fuel { textLexer with errs := es } = none := by
    intro fuel
    induction fuel with
    | zero => intro es; rfl
    | succ f ih =>
      intro es
      have hadv : ({ textLexer with errs := es } : Lexer).advance =
          ({ textLexer with errs := es },
            some ⟨1, 1, "please", .Internal "Unexpected state"⟩) := rfl
      simp only [Lexer.nextLoop, hadv]
      exact ih (es ++ [⟨1, 1, "please", .Internal "Unexpected state"⟩])
  exact ⟨rfl, fun fuel => key fuel []⟩

/-- C3 (counterexample): the lex pass over `"@\n:"` does not succeed — the
newline at 0-based column 1 of line 0 is itself an `UnexpectedChar`
diagnostic (reported 1-based as 1:2), so `lex` returns the aggregate
error rather than the token list. -/
theorem at_newline_colon_pass_fails :
    Lexer.lex "@\n:" "please" =
      some (.error ⟨[⟨1, 2, "please", .UnexpectedChar '\n'⟩]⟩) := by rfl

/-- C3 (amended): lexing `"@\n:"` yields the `At` token at stored position
(0, 0) — 1-based line 1, column 1 — and the `Colon` token at stored
position (1, 0) — 1-based line 2, column 1 — so the newline did reset the
column to 0 and increment the line; but the pass does not otherwise
succeed: the newline also produces the single `UnexpectedChar` diagnostic
at 1-based 1:2 and `lex` returns the aggregate error. -/
theorem at_newline_colon_positions :
    Lexer.run "@\n:" "please" =
      some ([⟨0, 0, .At, "please"⟩, ⟨1, 0, .Colon, "please"⟩],
        ⟨"please", [], none, none, 1, 1,
          [⟨1, 2, "please", .UnexpectedChar '\n'⟩], [State.Normal]⟩) ∧
    Lexer.lex "@\n:" "please" =
      some (.error ⟨[⟨1, 2, "please", .UnexpectedChar '\n'⟩]⟩) := by
  constructor <;> rfl

/-- C4: lexing `"@#:"` yields the `At` and `Colon` tokens around the
illegal character, records exactly one `UnexpectedChar` diagnostic naming
`#` at 1-based line 1, column 2, and the overall `lex` call returns the
aggregate error carrying exactly that diagnostic. -/
theorem resync_around_unexpected_hash :
    Lexer.run "@#:" "please" =
      some ([⟨0, 0, .At, "please"⟩, ⟨0, 2, .Colon, "please"⟩],
        ⟨"please", [], none, none, 0, 3,
          [⟨1, 2, "please", .UnexpectedChar '#'⟩], [State.Normal]⟩) ∧
    Lexer.lex "@#:" "please" =
      some (.error ⟨[⟨1, 2, "please", .UnexpectedChar '#'⟩]⟩) := by
  constructor <;> rfl

/-- C5: `Lexer::error` materializes every diagnostic by adding 1 to the
cursor's 0-based line and column, and consequently every error accrued by
a whole lexing pass carries 1-based (that is, positive) line and column. -/
theorem lex_errors_are_one_based :
    (∀ (l : Lexer) (k : CompilationErrorKind),
        l.error k = ⟨l.line + 1, l.col + 1, l.filename, k⟩) ∧
    (∀ (text filename : String) (toks : List Token) (l' : Lexer),
        Lexer.run text filename = some (toks, l') →
        ∀ e ∈ l'.errs, 1 ≤ e.line ∧ 1 ≤ e.column) := by
  refine ⟨fun l k => rfl, ?_⟩
  intro text filename toks l' hrun e he
  obtain ⟨toks₂, l₂, heq, -, -, -, -, es, herr, hb⟩ :=
    Lexer.lexLoop_total ((Lexer.new text filename).remaining + 1)
      (Lexer.new text filename) [] rfl (by omega)
  have hrun₂ : Lexer.run text filename = some (toks₂, l₂) := heq
  rw [hrun₂] at hrun
  obtain ⟨-, rfl⟩ : toks₂ = toks ∧ l₂ = l' := by
    simpa [Prod.ext_iff] using hrun
  rw [herr] at he
  simp only [Lexer.new_eq, List.nil_append] at he
  exact hb e he

/-- C5 witness: the single diagnostic of the pass over `"@#:"` has
positive (1-based) line and column. -/
theorem lex_errors_are_one_based_witness :
    1 ≤ (CompilationError.mk 1 2 "please" (.UnexpectedChar '#')).line ∧
    1 ≤ (CompilationError.mk 1 2 "please" (.UnexpectedChar '#')).column :=
  lex_errors_are_one_based.2 "@#:" "please"
    [⟨0, 0, .At, "please"⟩, ⟨0, 2, .Colon, "please"⟩]
    ⟨"please", [], none, none, 0, 3,
      [⟨1, 2, "please", .UnexpectedChar '#'⟩], [State.Normal]⟩
    (by rfl) ⟨1, 2, "please", .UnexpectedChar '#'⟩ (by simp)

/-- C6: lexing any identifier-shaped word (starting with `[A-Za-z_]`,
continuing with `[A-Za-z0-9_]`) on its own yields exactly one token at
position (0, 0) carrying the whole word: a `Keyword` token when the word
is in the closed vocabulary `for`/`in`/`if`/`else`, an `Identifier` token
otherwise. -/
theorem keyword_and_identifier_classification (w filename : String)
    (h : IdentShaped w) :
    Lexer.lex w filename =
      some (.ok [⟨0, 0,
        (if KEYWORDS.contains w then TokenKind.Keyword w
          else TokenKind.Identifier w), filename⟩]) := by
  obtain ⟨ln, cl, hrun⟩ := lex_word w filename h
  unfold Lexer.lex
  rw [hrun]
  rfl

/-- C6 witness: the keyword `for` lexes to a `Keyword` token and the
identifier-shaped word `format` to an `Identifier` token. -/
theorem keyword_and_identifier_classification_witness :
    (IdentShaped "for" ∧
      Lexer.lex "for" "please" =
        some (.ok [⟨0, 0, TokenKind.Keyword "for", "please"⟩])) ∧
    (IdentShaped "format" ∧
      Lexer.lex "format" "please" =
        some (.ok [⟨0, 0, TokenKind.Identifier "format", "please"⟩])) := by
  refine ⟨⟨by decide, ?_⟩, ⟨by decide, ?_⟩⟩
  · exact keyword_and_identifier_classification "for" "please" (by decide)
  · exact keyword_and_identifier_classification "format" "please" (by decide)

/-- C7: for every input text and filename the driver reaches end of input
(it never stops early), and returns the collected token sequence exactly
when the accrued error list is empty, and otherwise the aggregate error
carrying every accrued diagnostic. -/
theorem lex_driver_total_and_aggregates (text filename : String) :
    ∃ toks l', Lexer.run text filename = some (toks, l') ∧
      l'.isEof = true ∧
      Lexer.lex text filename =
        some (if l'.errs.isEmpty then Except.ok toks
          else Except.error ⟨l'.errs⟩) := by
  obtain ⟨toks, l', heq, hst', hf', heof, htok, hes⟩ :=
    Lexer.lexLoop_total ((Lexer.new text filename).remaining + 1)
      (Lexer.new text filename) [] rfl (by omega)
  have hrun : Lexer.run text filename = some (toks, l') := heq
  refine ⟨toks, l', hrun, heof, ?_⟩
  unfold Lexer.lex
  rw [hrun]

/-- The list of seven synthetic diagnostics used by the spec's display
test. -/
def sevenErrors : MultipleErrors :=
  ⟨(List.range 7).map (fun i => ⟨1, i + 1, "please", .UnexpectedChar '#'⟩)⟩

/-- One rendered detail line of `sevenErrors`. -/
def hashErrorLine (col : Nat) : String :=
  "\tunexpected character " ++ quoteStr ++ "#" ++ quoteStr
    ++ " at please:1:" ++ toString col ++ "\n"

/-- C8: the rendering of the aggregate error writes the header line exactly
when more than one error is present, then the first five detail lines (all
of them when five or fewer), then a line counting the remainder exactly
when more than five errors exist; in particular seven errors render as the
header, exactly five detail lines, and the line `2 other errors
omitted.`. -/
theorem multiple_errors_display_cap :
    (∀ m : MultipleErrors,
      m.fmtPieces =
        (if 1 < m.errs.length then ["multiple errors:\n"] else []) ++
        (m.errs.take 5).map (fun e => "\t" ++ e.display ++ "\n") ++
        (if 5 < m.errs.length then
          ["\t" ++ toString (m.errs.length - 5) ++ " other errors omitted.\n"]
        else [])) ∧
    (∀ m : MultipleErrors,
      "multiple errors:\n" ∈ m.fmtPieces ↔ 1 < m.errs.length) ∧
    sevenErrors.fmt =
      "multiple errors:\n" ++ hashErrorLine 1 ++ hashErrorLine 2
        ++ hashErrorLine 3 ++ hashErrorLine 4 ++ hashErrorLine 5
        ++ "\t2 other errors omitted.\n" := by
  refine ⟨fmtPieces_characterization, ?_, by rfl⟩
  intro m
  constructor
  · intro hmem
    by_contra hle
    rw [fmtPieces_characterization, if_neg hle,
      if_neg (show ¬ 5 < m.errs.length by omega)] at hmem
    simp only [List.nil_append, List.append_nil, List.mem_map] at hmem
    obtain ⟨e, -, hdl⟩ := hmem
    exact tab_line_ne_header e.display "\n" hdl
  · intro hgt
    rw [fmtPieces_characterization, if_pos hgt]
    simp

/-- C9: once the token iterator has returned "no token", every further
`next` call returns "no token" on the very same lexer state — it neither
resumes producing tokens nor records any new error. -/
theorem next_is_fused_after_exhaustion (l l₂ : Lexer)
    (h : l.next = some (l₂, none)) :
    l₂.next = some (l₂, none) := by
  obtain ⟨heof, htok⟩ := Lexer.nextLoop_eof (l.remaining + 1) l l₂ h
  have heq : ({ l₂ with token := none } : Lexer) = l₂ := by
    cases l₂
    simp_all
  unfold Lexer.next
  simp only [Lexer.nextLoop]
  have hadv : l₂.advance = (l₂, none) := by
    rw [show l₂.advance = ({ l₂ with token := none }, none) by
      simp [Lexer.advance, heof], heq]
  rw [hadv]
  simp [htok]

/-- C9 witness: on empty input the iterator is immediately exhausted and
stays exhausted on the same state. -/
theorem next_is_fused_after_exhaustion_witness :
    Lexer.next ⟨"please", [], none, none, 0, 0, [], [State.Normal]⟩ =
      some (⟨"please", [], none, none, 0, 0, [], [State.Normal]⟩, none) :=
  next_is_fused_after_exhaustion
    ⟨"please", [], none, none, 0, 0, [], [State.Normal]⟩
    ⟨"please", [], none, none, 0, 0, [], [State.Normal]⟩ (by rfl)

/-- C10: the Normal mode has no whitespace rule: a space, tab or newline at
a token-start position produces an `UnexpectedChar` diagnostic and is
consumed for resynchronization; concretely, `"@ :"` still yields the `At`
and `Colon` tokens but the whole pass fails with the aggregate holding the
single space diagnostic. -/
theorem whitespace_is_an_error :
    (∀ (l : Lexer) (c : Char), l.state = [State.Normal] → l.ch = some c →
        c = ' ' ∨ c = '\t' ∨ c = '\n' →
        l.advance = ((l.bump).1, some (l.error (.UnexpectedChar c))) ∧
          (l.bump).1.remaining + 1 = l.remaining) ∧
    Lexer.run "@ :" "please" =
      some ([⟨0, 0, .At, "please"⟩, ⟨0, 2, .Colon, "please"⟩],
        ⟨"please", [], none, none, 0, 3,
          [⟨1, 2, "please", .UnexpectedChar ' '⟩], [State.Normal]⟩) ∧
    Lexer.lex "@ :" "please" =
      some (.error ⟨[⟨1, 2, "please", .UnexpectedChar ' '⟩]⟩) := by
  refine ⟨?_, by rfl, by rfl⟩
  intro l c hst hch hc
  have hadv : l.advance = l.lexNormal := by
    simp [Lexer.advance, Lexer.isEof, hch, Lexer.curState, hst]
  refine ⟨?_, l.bump_remaining c hch⟩
  rw [hadv]
  rcases hc with rfl | rfl | rfl <;>
    exact l.lexNormal_error _ hch (by decide) (by decide) (by decide)
      (by decide) (by decide)

/-- C10 witness: a lone space under the cursor of a fresh lexer is reported
as `UnexpectedChar` at 1:1 and consumed. -/
theorem whitespace_is_an_error_witness :
    (Lexer.new " " "please").advance =
      (((Lexer.new " " "please").bump).1,
        some ((Lexer.new " " "please").error (.UnexpectedChar ' '))) ∧
      ((Lexer.new " " "please").bump).1.remaining + 1 =
        (Lexer.new " " "please").remaining :=
  whitespace_is_an_error.1 (Lexer.new " " "please") ' ' rfl rfl (.inl rfl)

end Please
